import Mathlib

/-!
Verification development for the PDF-to-Markdown parser (src/pdf_parser.py).

Python strings are embedded as `List Char` (a Python `str` is a sequence of
Unicode code points). Each definition below mirrors one function or code
fragment of src/pdf_parser.py; the doc comment names the source lines.
-/

/-- Embedding of a Lean string literal as a Python-style character list. -/
def pyStr (s : String) : List Char := s.data

/-- Python `str.strip()`: remove leading and trailing whitespace.
Lean `Char.isWhitespace` covers the space, tab, CR and LF characters that
occur in the texts handled here. -/
def pyStrip (l : List Char) : List Char :=
  ((l.dropWhile Char.isWhitespace).reverse.dropWhile Char.isWhitespace).reverse

/-- Python `s.split(sep)` with a single newline separator, as used by
`_assemble_paragraphs`, `_extract_toc` and `str.splitlines`-like scans:
the empty string yields one empty field, and every newline starts a new
field. -/
def pySplitNl : List Char → List (List Char)
  | [] => [[]]
  | c :: rest =>
    match pySplitNl rest with
    | [] => [[c]]
    | l :: ls => if c = '\n' then [] :: l :: ls else (c :: l) :: ls

/-- Python `'\n'.join(parts)` as used by `_build_markdown` and
`_table_to_markdown`. -/
def pyJoin : List (List Char) → List Char
  | [] => []
  | [p] => p
  | p :: ps => p ++ '\n' :: pyJoin ps

/-- Fuel-driven digit expansion for `natStr`; the fuel always suffices
since a number has fewer digits than `n + 1`. -/
def natStrGo (fuel : Nat) (n : Nat) : List Char :=
  match fuel with
  | 0 => []
  | fuel + 1 =>
    if n < 10 then [Nat.digitChar n]
    else natStrGo fuel (n / 10) ++ [Nat.digitChar (n % 10)]

/-- Python `str(n)` for a natural number. -/
def natStr (n : Nat) : List Char := natStrGo (n + 1) n

/-- Python `s.endswith(c)` for a one-character suffix. -/
def endsWith (c : Char) (l : List Char) : Bool :=
  match l.getLast? with
  | some d => d = c
  | none => false

/-- Python `c.isupper()` for one character, restricted to the Latin and
Cyrillic letters that occur in this code base (`A`-`Z`, U+0400-U+042F). -/
def pyIsUpperChar (c : Char) : Bool :=
  (65 ≤ c.toNat && c.toNat ≤ 90) || (0x400 ≤ c.toNat && c.toNat ≤ 0x42F)

/-- Python `c.islower()` for one character, restricted to Latin and
Cyrillic letters (`a`-`z`, U+0430-U+045F). -/
def pyIsLowerChar (c : Char) : Bool :=
  (97 ≤ c.toNat && c.toNat ≤ 122) || (0x430 ≤ c.toNat && c.toNat ≤ 0x45F)

/-- Python `c.isalpha()` restricted to the same Latin and Cyrillic letters. -/
def pyIsAlphaChar (c : Char) : Bool :=
  pyIsUpperChar c || pyIsLowerChar c

/-- Python `s.isupper()` for a whole string: at least one cased character
and no lowercase cased character. -/
def pyIsUpperStr (l : List Char) : Bool :=
  l.any (fun c => pyIsUpperChar c || pyIsLowerChar c) && l.all (fun c => !pyIsLowerChar c)

/-- `HeadingTracker.determine_level` (src/pdf_parser.py lines 85-92): a
detected level deeper than `last_level + 1` is coerced to `last_level + 1`;
the returned value becomes the new `last_level`. -/
def determine_level (last_level detected_level : Nat) : Nat :=
  if detected_level > last_level + 1 then last_level + 1 else detected_level

/-- One per-page record as assembled by `_extract_content`: page number,
paragraph-assembled text, rendered markdown table strings, and header
dicts (detected level, text) produced by `_detect_headers_smart`. -/
structure PageData where
  page_number : Nat
  text : List Char
  tables : List (List Char)
  headers : List (Nat × List Char)
deriving DecidableEq

/-- Metadata record mirroring the `PDFMetadata` dataclass. -/
structure PDFMetadataL where
  title : List Char
  author : List Char
  subject : List Char
  page_count : Nat
  file_name : List Char
  has_images : Bool
  is_scanned : Bool
deriving DecidableEq

/-- The effective (level, text) sequence the tracker produces for one
page of headers, starting from tracker state `last_level` (the loop of
`_build_markdown`, src/pdf_parser.py lines 670-686). -/
def resolveHeaders (last_level : Nat) : List (Nat × List Char) → List (Nat × List Char)
  | [] => []
  | (lvl, text) :: hs =>
    (determine_level last_level lvl, text) :: resolveHeaders (determine_level last_level lvl) hs

/-- Tracker state after processing one page of headers. -/
def resolvedLast (last_level : Nat) : List (Nat × List Char) → Nat
  | [] => last_level
  | (lvl, _) :: hs => resolvedLast (determine_level last_level lvl) hs

/-- All resolved headings of a document from tracker state `last_level`. -/
def resolvedHeadingsFrom (last_level : Nat) : List PageData → List (Nat × List Char)
  | [] => []
  | p :: ps =>
    resolveHeaders last_level p.headers ++
      resolvedHeadingsFrom (resolvedLast last_level p.headers) ps

/-- All resolved headings of a document: the tracker is reset to
`last_level = 0` at the start of `_build_markdown`. -/
def resolvedHeadings (pages : List PageData) : List (Nat × List Char) :=
  resolvedHeadingsFrom 0 pages

theorem determine_level_eq_min (last d : Nat) :
    determine_level last d = min d (last + 1) := by
  unfold determine_level
  split <;> omega

theorem resolveHeaders_append (last : Nat) (a b : List (Nat × List Char)) :
    resolveHeaders last (a ++ b) =
      resolveHeaders last a ++ resolveHeaders (resolvedLast last a) b := by
  induction a generalizing last with
  | nil => simp [resolveHeaders, resolvedLast]
  | cons h hs ih =>
    obtain ⟨lvl, text⟩ := h
    simp [resolveHeaders, resolvedLast, ih]

theorem resolvedHeadingsFrom_flat (last : Nat) (pages : List PageData) :
    resolvedHeadingsFrom last pages =
      resolveHeaders last (pages.flatMap PageData.headers) := by
  induction pages generalizing last with
  | nil => simp [resolvedHeadingsFrom, resolveHeaders]
  | cons p ps ih =>
    simp [resolvedHeadingsFrom, List.flatMap_cons, resolveHeaders_append, ih]

theorem resolveHeaders_head_le (last : Nat) (hs : List (Nat × List Char)) :
    ∀ x ∈ (resolveHeaders last hs).head?, x.1 ≤ last + 1 := by
  cases hs with
  | nil => simp [resolveHeaders]
  | cons h hs =>
    obtain ⟨lvl, text⟩ := h
    intro x hx
    simp only [resolveHeaders, List.head?_cons, Option.mem_def, Option.some.injEq] at hx
    subst hx
    simp only [determine_level_eq_min]
    omega

theorem resolveHeaders_chain (last : Nat) (hs : List (Nat × List Char)) :
    List.Chain' (fun h1 h2 => h2.1 ≤ h1.1 + 1) (resolveHeaders last hs) := by
  induction hs generalizing last with
  | nil => exact List.chain'_nil
  | cons h hs ih =>
    obtain ⟨lvl, text⟩ := h
    simp only [resolveHeaders]
    refine List.chain'_cons'.mpr ⟨?_, ih (determine_level last lvl)⟩
    intro y hy
    exact resolveHeaders_head_le (determine_level last lvl) hs y hy

/-- C1: for every document parse the heading tracker starts at
`last_level = 0`; each heading gets effective level
`min(detected_level, last_level + 1)` and that value becomes the new
`last_level`; hence (given that the detectors only produce detected
levels at least 1) the first resolved heading has effective level 1 and
consecutive resolved headings deepen by at most one level. -/
theorem C1_heading_hierarchy (pages : List PageData)
    (hdet : ∀ p ∈ pages, ∀ h ∈ p.headers, 1 ≤ h.1) :
    (∀ last d, determine_level last d = min d (last + 1)) ∧
    (∀ h hs, resolvedHeadings pages = h :: hs → h.1 = 1) ∧
    List.Chain' (fun h1 h2 => h2.1 ≤ h1.1 + 1) (resolvedHeadings pages) := by
  refine ⟨determine_level_eq_min, ?_, ?_⟩
  · intro h hs heq
    have hflat := resolvedHeadingsFrom_flat 0 pages
    rw [resolvedHeadings, hflat] at heq
    -- the first flattened header has detected level at least 1
    rcases hfl : pages.flatMap PageData.headers with _ | ⟨⟨lvl, text⟩, rest⟩
    · rw [hfl] at heq
      simp [resolveHeaders] at heq
    · rw [hfl] at heq
      simp only [resolveHeaders, List.cons.injEq] at heq
      have hmem : (lvl, text) ∈ pages.flatMap PageData.headers := by
        rw [hfl]; exact List.mem_cons_self _ _
      rcases List.mem_flatMap.mp hmem with ⟨p, hp, hh⟩
      have h1 : 1 ≤ lvl := hdet p hp _ hh
      have := heq.1
      rw [← this.symm] at *
      have : h.1 = determine_level 0 lvl := by rw [← heq.1]
      rw [this, determine_level_eq_min]
      omega
  · rw [resolvedHeadings, resolvedHeadingsFrom_flat]
    exact resolveHeaders_chain 0 _

/-- Concrete pages used to instantiate the C1 theorem. -/
def c1pages : List PageData :=
  [⟨1, [], [], [(3, pyStr "A"), (1, pyStr "B")]⟩, ⟨2, [], [], [(3, pyStr "C")]⟩]

/-- Witness for C1 at a concrete document. -/
theorem C1_heading_hierarchy_witness :
    (∀ p ∈ c1pages, ∀ h ∈ p.headers, 1 ≤ h.1) ∧
    List.Chain' (fun h1 h2 => h2.1 ≤ h1.1 + 1) (resolvedHeadings c1pages) := by
  refine ⟨by decide, (C1_heading_hierarchy c1pages (by decide)).2.2⟩

/-- A table candidate: rows of cells; a cell is `none` (Python `None`) or a
string. Mirrors the grids pdfplumber returns to `_extract_tables_with_strategies`. -/
def TableL : Type := List (List (Option (List Char)))

instance : DecidableEq TableL := by
  unfold TableL
  infer_instance

/-- Python `str(cell or '').strip()` on one cell. -/
def strCell (c : Option (List Char)) : List Char := pyStrip (c.getD [])

/-- Python `str(cell or '').strip().replace('\n', ' ')` on one data cell. -/
def dataCell (c : Option (List Char)) : List Char :=
  (strCell c).map (fun ch => if ch = '\n' then ' ' else ch)

/-- The summed stripped cell lengths of `_is_empty_table` and
`_table_to_markdown` (src/pdf_parser.py lines 451-455 and 592-596). -/
def totalContent (t : TableL) : Nat :=
  (t.map (fun row => (row.map (fun c => (strCell c).length)).sum)).sum

/-- `PDFParser._is_empty_table` (src/pdf_parser.py lines 447-456). -/
def is_empty_table (t : TableL) : Bool :=
  decide (t = ([] : TableL)) || decide (totalContent t < 10)

/-- Whether a strategy result wins in `_extract_tables_with_strategies`:
Python `tables and any(not self._is_empty_table(t) for t in tables)`. -/
def strategySucceeds (ts : List TableL) : Bool :=
  decide (ts ≠ []) && ts.any (fun t => !is_empty_table t)

/-- The three per-page strategy results consumed by
`_extract_tables_with_strategies`: the default `extract_tables` call, and
the two `table_settings` calls, the latter wrapped in `try/except`
(`none` = the call raised). -/
structure PageTables where
  default_tables : List TableL
  strict_tables : Option (List TableL)
  text_tables : Option (List TableL)

/-- `PDFParser._extract_tables_with_strategies` (src/pdf_parser.py lines
414-445): strategies in fixed order; the first whose result is non-empty
and contains a non-empty table returns its non-empty tables; a raising
strategy falls through; otherwise the empty list. -/
def extract_tables_with_strategies (p : PageTables) : List TableL :=
  if strategySucceeds p.default_tables then
    p.default_tables.filter (fun t => !is_empty_table t)
  else
    match p.strict_tables with
    | some ts =>
      if strategySucceeds ts then ts.filter (fun t => !is_empty_table t)
      else
        match p.text_tables with
        | some ts2 =>
          if strategySucceeds ts2 then ts2.filter (fun t => !is_empty_table t) else []
        | none => []
    | none =>
      match p.text_tables with
      | some ts2 =>
        if strategySucceeds ts2 then ts2.filter (fun t => !is_empty_table t) else []
      | none => []

/-- C3: table extraction tries default, strict and text strategies in that
fixed order and returns the non-empty tables of the first succeeding
strategy; later strategy results never influence the output once an
earlier one succeeds, and if no strategy succeeds the result is empty. -/
theorem C3_table_strategy_order (p : PageTables) :
    (strategySucceeds p.default_tables = true →
      extract_tables_with_strategies p =
          p.default_tables.filter (fun t => !is_empty_table t) ∧
        ∀ s t, extract_tables_with_strategies ⟨p.default_tables, s, t⟩ =
          p.default_tables.filter (fun t => !is_empty_table t)) ∧
    (strategySucceeds p.default_tables = false →
      ∀ ts, p.strict_tables = some ts → strategySucceeds ts = true →
        extract_tables_with_strategies p = ts.filter (fun t => !is_empty_table t) ∧
        ∀ t2, extract_tables_with_strategies ⟨p.default_tables, some ts, t2⟩ =
          ts.filter (fun t => !is_empty_table t)) ∧
    (strategySucceeds p.default_tables = false →
      (∀ ts ∈ p.strict_tables, strategySucceeds ts = false) →
      ∀ ts2, p.text_tables = some ts2 → strategySucceeds ts2 = true →
        extract_tables_with_strategies p = ts2.filter (fun t => !is_empty_table t)) ∧
    (strategySucceeds p.default_tables = false →
      (∀ ts ∈ p.strict_tables, strategySucceeds ts = false) →
      (∀ ts2 ∈ p.text_tables, strategySucceeds ts2 = false) →
      extract_tables_with_strategies p = []) := by
  obtain ⟨d, s, t⟩ := p
  refine ⟨?_, ?_, ?_, ?_⟩
  · intro hd
    constructor
    · simp [extract_tables_with_strategies, hd]
    · intro s2 t2
      simp [extract_tables_with_strategies, hd]
  · intro hd ts hs hts
    subst hs
    constructor
    · simp [extract_tables_with_strategies, hd, hts]
    · intro t2
      simp [extract_tables_with_strategies, hd, hts]
  · intro hd hstrict ts2 ht hts2
    subst ht
    simp only [extract_tables_with_strategies, hd, Bool.false_eq_true, if_false]
    cases s with
    | none => simp [hts2]
    | some ts =>
      have := hstrict ts (by simp)
      simp [this, hts2]
  · intro hd hstrict htext
    simp only [extract_tables_with_strategies, hd, Bool.false_eq_true, if_false]
    cases s with
    | none =>
      cases t with
      | none => simp
      | some ts2 =>
        have := htext ts2 (by simp)
        simp [this]
    | some ts =>
      have := hstrict ts (by simp)
      simp only [this, Bool.false_eq_true, if_false]
      cases t with
      | none => simp
      | some ts2 =>
        have := htext ts2 (by simp)
        simp [this]

/-- A concrete non-empty table candidate. -/
def c3table : TableL :=
  [[some (pyStr "Name"), some (pyStr "Age")], [some (pyStr "Alice"), some (pyStr "30")]]

/-- Concrete strategy results: the default strategy succeeds. -/
def c3page : PageTables := ⟨[c3table], some [], none⟩

/-- Witness for C3: the default strategy wins at a concrete page. -/
theorem C3_table_strategy_order_witness :
    strategySucceeds c3page.default_tables = true ∧
      extract_tables_with_strategies c3page = [c3table] := by
  refine ⟨by decide, ?_⟩
  have h := ((C3_table_strategy_order c3page).1 (by decide)).1
  rw [h]
  decide

/-- Whether a row has any cell with non-empty stripped content
(the `non_empty_rows` comprehension, src/pdf_parser.py lines 601-604). -/
def rowHasContent (row : List (Option (List Char))) : Bool :=
  row.any (fun c => decide (strCell c ≠ []))

/-- Python `while len(row) < len(header): row.append(''); row[:len(header)]`:
pad a data row with empty cells to the header width, then truncate to it. -/
def fitRow (w : Nat) (cells : List (List Char)) : List (List Char) :=
  (cells ++ List.replicate (w - cells.length) []).take w

/-- One markdown table line: Python `'| ' + ' | '.join(cells) + ' |'`. -/
def mdRowLine (cells : List (List Char)) : List Char :=
  pyStr "| " ++ List.intercalate (pyStr " | ") cells ++ pyStr " |"

/-- `PDFParser._table_to_markdown` (src/pdf_parser.py lines 586-631). -/
def table_to_markdown (t : TableL) : List Char :=
  if t = ([] : TableL) then []
  else if totalContent t < 10 then []
  else if (List.filter rowHasContent t).length < 2 then []
  else
    match List.filter rowHasContent t with
    | [] => []
    | hrow :: rest =>
      if (hrow.map strCell).all (fun c => decide (c = [])) then []
      else
        pyJoin (mdRowLine (hrow.map strCell) ::
          mdRowLine (List.replicate (hrow.map strCell).length (pyStr "---")) ::
          rest.map (fun row => mdRowLine (fitRow (hrow.map strCell).length (row.map dataCell))))

/-- Total count of non-whitespace characters across all cells. Modelled
from the words of the spec (section 4.3, noise filter); the source instead
sums the lengths of the cells after stripping only leading and trailing
whitespace, which also counts interior whitespace. -/
def specNonWhitespaceCount (t : TableL) : Nat :=
  (t.map (fun row =>
    (row.map (fun c => ((c.getD []).filter (fun ch => !ch.isWhitespace)).length)).sum)).sum

/-- C4 counterexample: a two-row table whose cells hold fewer than 10
non-whitespace characters (8) but at least 10 characters after stripping
only the ends of each cell; the code renders it instead of rejecting it. -/
def c4table : TableL := [[some (pyStr "ab cd")], [some (pyStr "ef gh")]]

theorem C4_table_rejection_counterexample :
    specNonWhitespaceCount c4table < 10 ∧ table_to_markdown c4table ≠ [] := by
  decide

/-- C4 (amended): rendering returns the empty string whenever the sum of
cell lengths after stripping leading/trailing whitespace is below 10, or
fewer than two rows contain any non-empty cell; in particular a one-row
candidate (header only) is always rejected. -/
theorem C4_table_rejection (t : TableL)
    (h : totalContent t < 10 ∨ (List.filter rowHasContent t).length < 2 ∨ ∃ row, t = [row]) :
    table_to_markdown t = [] := by
  rcases h with h | h | ⟨row, hrow⟩
  · simp [table_to_markdown, h]
  · simp [table_to_markdown, h]
  · subst hrow
    have hle : (List.filter rowHasContent [row]).length < 2 := by
      have h1 : (List.filter rowHasContent [row]).length ≤ 1 := by
        simpa using List.length_filter_le rowHasContent [row]
      omega
    simp [table_to_markdown, hle]

/-- A one-header-row, zero-data-row candidate with plenty of content. -/
def c4headerOnly : TableL := [[some (pyStr "Instruction"), some (pyStr "Manual")]]

/-- Witness for C4 at a header-only table. -/
theorem C4_table_rejection_witness :
    (∃ row, c4headerOnly = [row]) ∧ table_to_markdown c4headerOnly = [] := by
  refine ⟨⟨_, rfl⟩, C4_table_rejection c4headerOnly (Or.inr (Or.inr ⟨_, rfl⟩))⟩

/-- C5: every accepted (non-empty) rendered table is a header row, then
exactly one separator row of header-width `---` cells immediately after
it, then data rows of exactly header-width cells, with newlines inside
data cells flattened to spaces. -/
theorem C5_table_render_shape (t : TableL) (h : table_to_markdown t ≠ []) :
    ∃ (header : List (List Char)) (dataRows : List (List (List Char))),
      table_to_markdown t =
        pyJoin (mdRowLine header ::
          mdRowLine (List.replicate header.length (pyStr "---")) ::
          dataRows.map mdRowLine) ∧
      (∀ r ∈ dataRows, r.length = header.length) ∧
      (∀ r ∈ dataRows, ∀ c ∈ r, '\n' ∉ c) := by
  by_cases h0 : t = ([] : TableL)
  · simp [table_to_markdown, h0] at h
  by_cases h1 : totalContent t < 10
  · simp [table_to_markdown, h0, h1] at h
  by_cases h2 : (List.filter rowHasContent t).length < 2
  · simp [table_to_markdown, h0, h1, h2] at h
  rcases hner : List.filter rowHasContent t with _ | ⟨hrow, rest⟩
  · rw [hner] at h2
    simp at h2
  by_cases h3 : (hrow.map strCell).all (fun c => decide (c = [])) = true
  · simp [table_to_markdown, h0, h1, h2, hner, h3] at h
  refine ⟨hrow.map strCell,
    rest.map (fun row => fitRow (hrow.map strCell).length (row.map dataCell)), ?_, ?_, ?_⟩
  · rw [hner] at h2
    simp only [table_to_markdown, hner]
    rw [if_neg h0, if_neg h1, if_neg (by simpa using h2), if_neg h3]
    simp [List.map_map, Function.comp_def]
  · intro r hr
    rcases List.mem_map.mp hr with ⟨row, hrow2, rfl⟩
    unfold fitRow
    rw [List.length_take, List.length_append, List.length_replicate]
    omega
  · intro r hr c hc
    rcases List.mem_map.mp hr with ⟨row, hrow2, rfl⟩
    unfold fitRow at hc
    have hc2 := List.mem_of_mem_take hc
    rcases List.mem_append.mp hc2 with hmem | hmem
    · rcases List.mem_map.mp hmem with ⟨cell, hcell, rfl⟩
      intro hnl
      unfold dataCell at hnl
      rcases List.mem_map.mp hnl with ⟨ch, hch, heq⟩
      by_cases hch2 : ch = '\n' <;> simp [hch2] at heq
    · have hz : c = [] := List.eq_of_mem_replicate hmem
      subst hz
      simp

/-- A concrete accepted table with a short and a long data row. -/
def c5table : TableL :=
  [[some (pyStr "Name"), some (pyStr "Age")],
   [some (pyStr "Alice"), some (pyStr "30"), some (pyStr "extra")],
   [some (pyStr "Bob")]]

/-- Witness for C5 at a concrete accepted table. -/
theorem C5_table_render_shape_witness :
    table_to_markdown c5table ≠ [] ∧
    ∃ (header : List (List Char)) (dataRows : List (List (List Char))),
      table_to_markdown c5table =
        pyJoin (mdRowLine header ::
          mdRowLine (List.replicate header.length (pyStr "---")) ::
          dataRows.map mdRowLine) ∧
      (∀ r ∈ dataRows, r.length = header.length) ∧
      (∀ r ∈ dataRows, ∀ c ∈ r, '\n' ∉ c) :=
  ⟨by decide, C5_table_render_shape c5table (by decide)⟩

/-- Python regex class `\d` restricted to ASCII digits, as matched by
`^\d+[\.\)]\s` in `_looks_like_header`. -/
def pyIsDigit (c : Char) : Bool := 48 ≤ c.toNat && c.toNat ≤ 57

/-- Continuation of the `^\d+[\.\)]\s` match after the first digit:
further digits, then a dot or closing parenthesis, then one whitespace
character. -/
def numberedTail : List Char → Bool
  | [] => false
  | c :: rest =>
    if pyIsDigit c then numberedTail rest
    else if c = '.' || c = ')' then
      match rest with
      | d :: _ => d.isWhitespace
      | [] => false
    else false

/-- Python `re.match(r'^\d+[\.\)]\s', text)` viewed as a Bool. -/
def matchesNumbered : List Char → Bool
  | [] => false
  | c :: rest => pyIsDigit c && numberedTail rest

/-- `PDFParser._looks_like_header` (src/pdf_parser.py lines 530-547). -/
def looks_like_header (text : List Char) : Bool :=
  match text with
  | [] => false
  | c :: _ =>
    if text.length < 100 && pyIsUpperChar c then
      if matchesNumbered text then true
      else if pyIsUpperStr text && decide (text.length > 3) then true
      else if !endsWith '.' text then true
      else false
    else false

theorem pyIsDigit_not_upper (c : Char) (h : pyIsDigit c = true) :
    pyIsUpperChar c = false := by
  simp only [pyIsDigit, Bool.and_eq_true, decide_eq_true_eq] at h
  simp only [pyIsUpperChar, Bool.or_eq_false_iff, Bool.and_eq_false_iff,
    decide_eq_false_iff_not]
  omega

/-- The numbered list line of the C6 claim. -/
def c6line : List Char :=
  pyStr "1. Машинное обучение — это подраздел искусственного интеллекта."

/-- C6 counterexample: at the concrete line of the claim the classifier
does return False and the line does match the numeric-prefix pattern and
is short, but contrary to the claim it does not start with an uppercase
character: it starts with the digit 1, and Python isupper is False on
digits. -/
theorem C6_numbered_list_counterexample :
    matchesNumbered c6line = true ∧ c6line.length < 100 ∧
      pyIsUpperChar (c6line.headD ' ') = false ∧
      looks_like_header c6line = false := by
  decide

/-- C6 (amended): every line matching the numeric-prefix pattern
`^\d+[.)]\s` — in particular a numbered list item whose remainder is a
long lowercase-continuing sentence — is not classified as a heading: it
starts with a digit, which is not an uppercase character, so the
uppercase gate of the classifier already fails. -/
theorem C6_numbered_list_not_header (text : List Char)
    (h : matchesNumbered text = true) :
    looks_like_header text = false := by
  cases text with
  | nil => simp [matchesNumbered] at h
  | cons c rest =>
    simp only [matchesNumbered, Bool.and_eq_true] at h
    have hu := pyIsDigit_not_upper c h.1
    simp [looks_like_header, hu]

/-- Witness for C6 at the concrete line of the claim. -/
theorem C6_numbered_list_not_header_witness :
    matchesNumbered c6line = true ∧ looks_like_header c6line = false :=
  ⟨by decide, C6_numbered_list_not_header c6line (by decide)⟩

/-- The `should_join` condition of `_assemble_paragraphs`
(src/pdf_parser.py lines 392-397): previous line ends in a lowercase
letter, a comma or a hyphen, or the new line starts with a lowercase
letter. -/
def shouldJoin (prev line : List Char) : Bool :=
  (match prev.getLast? with
   | some d => pyIsLowerChar d
   | none => false) ||
  endsWith ',' prev || endsWith '-' prev ||
  (match line with
   | c :: _ => pyIsLowerChar c && pyIsAlphaChar c
   | [] => false)

/-- Python `' '.join(current)`. -/
def joinSpace (parts : List (List Char)) : List Char :=
  List.intercalate (pyStr " ") parts

/-- Close the current paragraph if non-empty (the flush steps of
`_assemble_paragraphs`). -/
def asmFlush (paras cur : List (List Char)) : List (List Char) :=
  if cur = [] then paras else paras ++ [joinSpace cur]

/-- The line loop of `_assemble_paragraphs` (src/pdf_parser.py lines
375-410), accumulating finished paragraphs and the current paragraph.
Note the fall-through in the source: a non-blank line is appended to the
current paragraph in both the `should_join` and the remaining branch; the
condition only controls removal of a trailing hyphen. -/
def asmLines (paras cur : List (List Char)) : List (List Char) → List (List Char)
  | [] => asmFlush paras cur
  | raw :: rest =>
    if pyStrip raw = [] then asmLines (asmFlush paras cur) [] rest
    else
      match cur.getLast? with
      | some prev =>
        if shouldJoin prev (pyStrip raw) then
          (if endsWith '-' prev then
            asmLines paras (cur.dropLast ++ [prev.dropLast, pyStrip raw]) rest
          else asmLines paras (cur ++ [pyStrip raw]) rest)
        else asmLines paras (cur ++ [pyStrip raw]) rest
      | none => asmLines paras [pyStrip raw] rest

/-- `PDFParser._assemble_paragraphs` (src/pdf_parser.py lines 366-412). -/
def assemble_paragraphs (text : List Char) : List Char :=
  if text = [] then []
  else List.intercalate (pyStr "\n\n") (asmLines [] [] (pySplitNl text))

/-- Emission step for a finished run of spaces: Python
`re.sub(r' +', ' ', text)` replaces each maximal run with one space. -/
def spEmit (run : Nat) : List Char := if 1 ≤ run then [' '] else []

def squeezeSpacesAux (run : Nat) : List Char → List Char
  | [] => spEmit run
  | c :: rest =>
    if c = ' ' then squeezeSpacesAux (run + 1) rest
    else spEmit run ++ c :: squeezeSpacesAux 0 rest

/-- Python `re.sub(r' +', ' ', text)`. -/
def squeezeSpaces (l : List Char) : List Char := squeezeSpacesAux 0 l

/-- Emission step for a finished run of newlines: Python
`re.sub(r'\n{3,}', '\n\n', text)` caps each maximal run at two. -/
def nlEmit (run : Nat) : List Char :=
  if 3 ≤ run then ['\n', '\n'] else List.replicate run '\n'

def squeezeNlAux (run : Nat) : List Char → List Char
  | [] => nlEmit run
  | c :: rest =>
    if c = '\n' then squeezeNlAux (run + 1) rest
    else nlEmit run ++ c :: squeezeNlAux 0 rest

/-- Python `re.sub(r'\n{3,}', '\n\n', text)`. -/
def squeezeNl (l : List Char) : List Char := squeezeNlAux 0 l

/-- Python `re.sub(r'-\n', '', text)`: delete each hyphen-newline pair,
scanning left to right. -/
def removeHyphenNl : List Char → List Char
  | '-' :: '\n' :: rest => removeHyphenNl rest
  | c :: rest => c :: removeHyphenNl rest
  | [] => []

/-- `PDFParser._clean_text` (src/pdf_parser.py lines 549-557). -/
def clean_text (text : List Char) : List Char :=
  pyStrip (removeHyphenNl (squeezeNl (squeezeSpaces text)))

/-- The page-text pipeline of `_extract_content` (src/pdf_parser.py lines
300-311): `_extract_text_with_fallback` (whose encoding fallback does not
trigger for clean text and whose NFC normalization is the identity on the
already-composed texts considered here) followed by
`_assemble_paragraphs`. -/
def pageTextPipeline (text : List Char) : List Char :=
  assemble_paragraphs (clean_text text)

/-- C7: the claim says a non-blank line is joined to the current
paragraph exactly when one of the four join conditions holds. The code
appends the line to the current paragraph in both branches, so two
sentences on consecutive lines are merged into one paragraph even though
no join condition holds (the condition only governs hyphen removal). The
blank-line termination and the hyphenated line-break reassembly parts of
the claim do hold, as evaluated here. -/
theorem C7_paragraph_join :
    shouldJoin (pyStr "First line ends here.") (pyStr "Second line.") = false ∧
    assemble_paragraphs (pyStr "First line ends here.\nSecond line.") =
      pyStr "First line ends here. Second line." ∧
    assemble_paragraphs (pyStr "Alpha beta\n\nGamma delta") =
      pyStr "Alpha beta\n\nGamma delta" ∧
    pageTextPipeline (pyStr "inter-\nnational") = pyStr "international" := by
  decide

/-- The low-text page counter of `_is_scanned_document`
(src/pdf_parser.py lines 803-807). -/
def lowTextCount : List PageData → Nat
  | [] => 0
  | p :: ps => (if (pyStrip p.text).length < 100 then 1 else 0) + lowTextCount ps

/-- `PDFParser._is_scanned_document` (src/pdf_parser.py lines 800-810).
The Python comparison `low_text_pages > len(pages_content) * 0.5` is
exact for any attainable page count (n * 0.5 is an exact binary float),
so it is embedded as `2 * low > n`. -/
def is_scanned_document (pages : List PageData) : Bool :=
  decide (2 * lowTextCount pages > pages.length)

/-- The warning recorded by `parse` when a scan is detected with OCR off. -/
def scanWarning : List Char := pyStr "Документ выглядит как скан, но OCR отключён"

/-- The scanned-document branch of `parse` (src/pdf_parser.py lines
242-248) with OCR disabled: the third component records whether the
document was classified as scanned. -/
def scanCheck (pages : List PageData) (warnings : List (List Char)) :
    List PageData × List (List Char) × Bool :=
  if is_scanned_document pages then (pages, warnings ++ [scanWarning], true)
  else (pages, warnings, false)

theorem lowTextCount_eq_filter (pages : List PageData) :
    lowTextCount pages =
      (pages.filter (fun p => decide ((pyStrip p.text).length < 100))).length := by
  induction pages with
  | nil => rfl
  | cons p ps ih =>
    simp only [lowTextCount, ih, List.filter_cons]
    by_cases h : (pyStrip p.text).length < 100
    · simp [h, Nat.add_comm]
    · simp [h]

/-- C10: a document is classified scanned iff strictly more than half of
its pages have fewer than 100 characters of stripped text; exactly half
is not scanned; and when a scanned document is processed with OCR
disabled the warning is appended while every page is kept unchanged. -/
theorem C10_scanned_classification (pages : List PageData) (warnings : List (List Char)) :
    (is_scanned_document pages = true ↔
      2 * (pages.filter (fun p => decide ((pyStrip p.text).length < 100))).length >
        pages.length) ∧
    (2 * (pages.filter (fun p => decide ((pyStrip p.text).length < 100))).length =
        pages.length → is_scanned_document pages = false) ∧
    (is_scanned_document pages = true →
      scanCheck pages warnings = (pages, warnings ++ [scanWarning], true)) := by
  refine ⟨?_, ?_, ?_⟩
  · rw [is_scanned_document, lowTextCount_eq_filter]
    exact decide_eq_true_iff
  · intro h
    rw [is_scanned_document, lowTextCount_eq_filter]
    simp only [decide_eq_false_iff_not]
    omega
  · intro h
    rw [scanCheck, if_pos h]

/-- A three-page document: two near-empty pages, one full page. -/
def c10pages : List PageData :=
  [⟨1, [], [], []⟩, ⟨2, pyStr "  ", [], []⟩, ⟨3, List.replicate 120 'a', [], []⟩]

set_option maxRecDepth 8192 in
/-- Witness for C10 at a concrete scanned document with OCR disabled. -/
theorem C10_scanned_classification_witness :
    is_scanned_document c10pages = true ∧
      scanCheck c10pages [] = (c10pages, [scanWarning], true) :=
  ⟨by decide, (C10_scanned_classification c10pages []).2.2 (by decide)⟩

/-- Python `text.replace(pat, '', 1)`: delete the leftmost occurrence of
`pat` (used by `_build_markdown` to remove emitted heading texts from the
page text, src/pdf_parser.py lines 692-694). -/
def replaceFirst (pat : List Char) : List Char → List Char
  | [] => []
  | c :: rest =>
    if pat.isPrefixOf (c :: rest) then (c :: rest).drop pat.length
    else c :: replaceFirst pat rest

/-- The header-removal loop of `_build_markdown`. -/
def removeHeaderTexts (headers : List (Nat × List Char)) (text : List Char) : List Char :=
  headers.foldl (fun t h => replaceFirst h.2 t) text

/-- The page text that `_build_markdown` appends (after removing heading
texts and stripping); nothing is appended when it is empty. -/
def pageEmittedText (p : PageData) : List Char :=
  pyStrip (removeHeaderTexts p.headers p.text)

/-- Python `line.startswith('#')`. -/
def hashLine : List Char → Bool
  | c :: _ => c = '#'
  | [] => false

/-- One iteration of the `_extract_toc` loop (src/pdf_parser.py lines
755-761): a `#`-prefixed line yields an indented entry. -/
def tocEntry (line : List Char) : Option (List Char) :=
  if hashLine line then
    some ((List.replicate
        ((line.length - (line.dropWhile (fun c => c = '#')).length) - 1)
        (pyStr "  ")).flatten ++
      pyStr "- " ++ pyStrip (line.dropWhile (fun c => c = '#')))
  else none

/-- `PDFParser._extract_toc` (src/pdf_parser.py lines 752-762). -/
def extract_toc (markdown : List Char) : List (List Char) :=
  (pySplitNl markdown).filterMap tocEntry

/-- The markdown part `_build_markdown` emits for one resolved heading:
a newline, `level + 1` hash marks, a space, the text, a newline. -/
def headingPart (h : Nat × List Char) : List Char :=
  pyStr "\n" ++ List.replicate (h.1 + 1) '#' ++ pyStr " " ++ h.2 ++ pyStr "\n"

/-- The markdown parts `_build_markdown` emits for one page (headers with
tracker state `last_level`, then the page text, then tables, then the
page marker; images are absent in the default configuration where no
image analyzer is installed). -/
def pageParts (last_level : Nat) (p : PageData) : List (List Char) :=
  (resolveHeaders last_level p.headers).map headingPart ++
  (if pageEmittedText p = [] then [] else [pageEmittedText p]) ++
  p.tables.filterMap
    (fun tbl => if tbl = [] then none else some (pyStr "\n" ++ tbl ++ pyStr "\n")) ++
  [pyStr "\n<!-- page " ++ natStr p.page_number ++ pyStr " -->\n"]

/-- The page loop of `_build_markdown`, threading the tracker state. -/
def pagesParts (last_level : Nat) : List PageData → List (List Char)
  | [] => []
  | p :: ps => pageParts last_level p ++ pagesParts (resolvedLast last_level p.headers) ps

/-- The title and frontmatter parts of `_build_markdown` (src/pdf_parser.py
lines 648-660). -/
def mdHead (meta : PDFMetadataL) : List (List Char) :=
  [pyStr "# " ++ meta.title ++ pyStr "\n", pyStr "---",
   pyStr "author: " ++ meta.author,
   pyStr "pages: " ++ natStr meta.page_count,
   pyStr "source: " ++ meta.file_name] ++
  (if meta.has_images then [pyStr "has_images: true"] else []) ++
  (if meta.is_scanned then [pyStr "is_scanned: true"] else []) ++
  [pyStr "---\n"]

/-- `PDFParser._build_markdown` (src/pdf_parser.py lines 633-714) in the
default configuration (no image analyzer): the parts joined by newlines,
with the heading tracker reset to 0 first. -/
def build_markdown (meta : PDFMetadataL) (pages : List PageData) : List Char :=
  pyJoin (mdHead meta ++ pagesParts 0 pages)

/-- Metadata of the C2 counterexample document. -/
def c2meta : PDFMetadataL := ⟨pyStr "T", pyStr "A", [], 0, pyStr "f", false, false⟩

/-- A page whose body text begins with a hash mark and that carries no
headings. -/
def c2bpages : List PageData := [⟨1, pyStr "#1 Best Seller", [], []⟩]

/-- C2 counterexample: a document with no headings at all still gets one
table-of-contents entry, because the `# title` line of the document also
starts with a hash mark, so the TOC does not have exactly as many entries
as there are resolved headings; and a page whose body text contains a
line starting with a hash mark (such as `#1 Best Seller`) adds yet
another TOC entry, so without a proviso on such lines the count is not
even exactly one more than the resolved headings. -/
theorem C2_toc_counterexample :
    ((extract_toc (build_markdown c2meta [])).length ≠
      (resolvedHeadings ([] : List PageData)).length) ∧
    ((extract_toc (build_markdown c2meta c2bpages)).length ≠
      (resolvedHeadings c2bpages).length) ∧
    ((extract_toc (build_markdown c2meta c2bpages)).length ≠
      (resolvedHeadings c2bpages).length + 1) := by
  refine ⟨by decide, by decide, by decide⟩

theorem pySplitNl_ne_nil (l : List Char) : pySplitNl l ≠ [] := by
  induction l with
  | nil => simp [pySplitNl]
  | cons c rest ih =>
    simp only [pySplitNl]
    rcases h : pySplitNl rest with _ | ⟨x, xs⟩
    · simp
    · by_cases hc : c = '\n' <;> simp [hc]

theorem pySplitNl_append (a b : List Char) :
    pySplitNl (a ++ '\n' :: b) = pySplitNl a ++ pySplitNl b := by
  induction a with
  | nil =>
    rcases h : pySplitNl b with _ | ⟨l, ls⟩
    · exact absurd h (pySplitNl_ne_nil b)
    · simp [pySplitNl, h]
  | cons c rest ih =>
    rcases hr : pySplitNl rest with _ | ⟨l, ls⟩
    · exact absurd hr (pySplitNl_ne_nil rest)
    · simp only [List.cons_append, pySplitNl, List.append_eq]
      rw [ih, hr]
      simp only [List.cons_append]
      by_cases hc : c = '\n' <;> simp [pySplitNl, hr, hc]

theorem pySplitNl_noNl (l : List Char) (h : '\n' ∉ l) : pySplitNl l = [l] := by
  induction l with
  | nil => rfl
  | cons c rest ih =>
    have hc : ¬(c = '\n') := by
      intro e
      exact h (e ▸ List.mem_cons_self c rest)
    have hr : '\n' ∉ rest := fun m => h (List.mem_cons_of_mem _ m)
    simp [pySplitNl, ih hr, hc]

theorem pyJoin_splitNl (parts : List (List Char)) (h : parts ≠ []) :
    pySplitNl (pyJoin parts) = (parts.map pySplitNl).flatten := by
  induction parts with
  | nil => exact absurd rfl h
  | cons p ps ih =>
    cases ps with
    | nil => simp [pyJoin]
    | cons q qs =>
      have e : pyJoin (p :: q :: qs) = p ++ '\n' :: pyJoin (q :: qs) := rfl
      rw [e, pySplitNl_append, ih (by simp)]
      simp

/-- The TOC entries contributed by the lines of one markdown part. -/
def partToc (p : List Char) : List (List Char) :=
  (pySplitNl p).filterMap tocEntry

theorem filterMap_flatten (f : List Char → Option (List Char))
    (L : List (List (List Char))) :
    L.flatten.filterMap f = (L.map (fun l => l.filterMap f)).flatten := by
  induction L with
  | nil => rfl
  | cons x xs ih => simp [List.filterMap_append, ih]

theorem extract_toc_join (parts : List (List Char)) (h : parts ≠ []) :
    extract_toc (pyJoin parts) = (parts.map partToc).flatten := by
  rw [extract_toc, pyJoin_splitNl parts h, filterMap_flatten, List.map_map]
  have hfun : (fun l => List.filterMap tocEntry l) ∘ pySplitNl = partToc := rfl
  rw [hfun]

theorem pyStr_nl : pyStr "\n" = ['\n'] := rfl

theorem pyStr_space : pyStr " " = [' '] := rfl

theorem digitChar_isDigit (m : Nat) (h : m < 10) :
    pyIsDigit (Nat.digitChar m) = true := by
  interval_cases m <;> decide

theorem natStrGo_digit (fuel : Nat) : ∀ (n : Nat), ∀ c ∈ natStrGo fuel n, pyIsDigit c = true := by
  induction fuel with
  | zero => simp [natStrGo]
  | succ fuel ih =>
    intro n c hc
    rw [natStrGo] at hc
    split at hc
    · rename_i hlt
      simp only [List.mem_singleton] at hc
      subst hc
      exact digitChar_isDigit n hlt
    · rename_i hge
      rcases List.mem_append.mp hc with h1 | h1
      · exact ih (n / 10) c h1
      · simp only [List.mem_singleton] at h1
        subst h1
        exact digitChar_isDigit (n % 10) (Nat.mod_lt _ (by omega))

theorem natStr_digit (n : Nat) : ∀ c ∈ natStr n, pyIsDigit c = true :=
  natStrGo_digit (n + 1) n

theorem natStr_no_nl (n : Nat) : '\n' ∉ natStr n := by
  intro h
  exact absurd (natStr_digit n '\n' h) (by decide)

theorem hashLine_append (l a : List Char) (hl : l ≠ []) (h : hashLine l = false) :
    hashLine (l ++ a) = false := by
  cases l with
  | nil => exact absurd rfl hl
  | cons c rest => simpa [hashLine] using h

theorem tocEntry_none (l : List Char) (h : hashLine l = false) : tocEntry l = none := by
  simp [tocEntry, h]

theorem partToc_nil_of_lines (p : List Char)
    (h : ∀ l ∈ pySplitNl p, hashLine l = false) : partToc p = [] := by
  rw [partToc, List.filterMap_eq_nil_iff]
  intro l hl
  exact tocEntry_none l (h l hl)

theorem partToc_noNl (p : List Char) (hn : '\n' ∉ p) (hh : hashLine p = false) :
    partToc p = [] := by
  apply partToc_nil_of_lines
  intro l hl
  rw [pySplitNl_noNl p hn] at hl
  simp only [List.mem_singleton] at hl
  subst hl
  exact hh

theorem dropWhile_hash (k : Nat) (t : List Char) :
    (List.replicate k '#' ++ ' ' :: t).dropWhile (fun c => c = '#') = ' ' :: t := by
  induction k with
  | zero => simp [List.dropWhile_cons]
  | succ k ih => simp [List.replicate_succ, List.dropWhile_cons, ih]

theorem pyStrip_cons_ws (c : Char) (hc : c.isWhitespace = true) (l : List Char) :
    pyStrip (c :: l) = pyStrip l := by
  simp [pyStrip, List.dropWhile_cons, hc]

theorem tocEntry_heading_line (lvl : Nat) (t : List Char) :
    tocEntry (List.replicate (lvl + 1) '#' ++ ' ' :: t) =
      some ((List.replicate lvl (pyStr "  ")).flatten ++ pyStr "- " ++ pyStrip t) := by
  have hhash : hashLine (List.replicate (lvl + 1) '#' ++ ' ' :: t) = true := by
    simp [List.replicate_succ, hashLine]
  rw [tocEntry, if_pos hhash, dropWhile_hash]
  rw [pyStrip_cons_ws ' ' (by decide) t]
  have harith :
      (List.replicate (lvl + 1) '#' ++ ' ' :: t).length - (' ' :: t).length - 1 = lvl := by
    simp only [List.length_append, List.length_replicate, List.length_cons]
    omega
  rw [harith]

theorem noNl_hash_space (k : Nat) (t : List Char) (hn : '\n' ∉ t) :
    '\n' ∉ List.replicate k '#' ++ ' ' :: t := by
  intro hmem
  rcases List.mem_append.mp hmem with h1 | h1
  · exact absurd (List.eq_of_mem_replicate h1) (by decide)
  · rcases List.mem_cons.mp h1 with h2 | h2
    · exact absurd h2 (by decide)
    · exact hn h2

theorem pySplitNl_cons_nl (b : List Char) :
    pySplitNl ('\n' :: b) = [] :: pySplitNl b := by
  simpa using pySplitNl_append [] b

/-- The TOC entry the claim associates to one resolved heading. -/
def tocOfHeading (h : Nat × List Char) : List Char :=
  (List.replicate h.1 (pyStr "  ")).flatten ++ pyStr "- " ++ pyStrip h.2

theorem partToc_headingPart (h : Nat × List Char) (hn : '\n' ∉ h.2) :
    partToc (headingPart h) = [tocOfHeading h] := by
  obtain ⟨lvl, t⟩ := h
  have e : headingPart (lvl, t) =
      '\n' :: ((List.replicate (lvl + 1) '#' ++ ' ' :: t) ++ '\n' :: []) := by
    simp [headingPart, pyStr_nl, pyStr_space, List.append_assoc]
  rw [partToc, e, pySplitNl_cons_nl, pySplitNl_append,
    pySplitNl_noNl _ (noNl_hash_space (lvl + 1) t hn)]
  have h0 : tocEntry [] = none := rfl
  simp [h0, tocEntry_heading_line lvl t, tocOfHeading, pySplitNl]

theorem partToc_titlePart (t : List Char) (hn : '\n' ∉ t) :
    partToc (pyStr "# " ++ t ++ pyStr "\n") = [pyStr "- " ++ pyStrip t] := by
  have e : pyStr "# " ++ t ++ pyStr "\n" =
      (List.replicate 1 '#' ++ ' ' :: t) ++ '\n' :: [] := by
    simp [pyStr_nl, List.append_assoc]
    rfl
  rw [partToc, e, pySplitNl_append, pySplitNl_noNl _ (noNl_hash_space 1 t hn)]
  have h0 : tocEntry [] = none := rfl
  have hentry : tocEntry ('#' :: ' ' :: t) = some (pyStr "- " ++ pyStrip t) := by
    simpa using tocEntry_heading_line 0 t
  simp [h0, hentry, pySplitNl]

theorem partToc_tablePart (tbl : List Char)
    (h : ∀ l ∈ pySplitNl tbl, hashLine l = false) :
    partToc (pyStr "\n" ++ tbl ++ pyStr "\n") = [] := by
  apply partToc_nil_of_lines
  intro l hl
  have e : pyStr "\n" ++ tbl ++ pyStr "\n" = '\n' :: (tbl ++ '\n' :: []) := by
    simp [pyStr_nl, List.append_assoc]
  rw [e, pySplitNl_cons_nl, pySplitNl_append] at hl
  rcases List.mem_cons.mp hl with h1 | h1
  · subst h1; rfl
  · rcases List.mem_append.mp h1 with h2 | h2
    · exact h l h2
    · have : l = [] := by simpa [pySplitNl] using h2
      subst this; rfl

theorem partToc_markerPart (n : Nat) :
    partToc (pyStr "\n<!-- page " ++ natStr n ++ pyStr " -->\n") = [] := by
  apply partToc_nil_of_lines
  intro l hl
  have e : pyStr "\n<!-- page " ++ natStr n ++ pyStr " -->\n" =
      '\n' :: ((pyStr "<!-- page " ++ natStr n ++ pyStr " -->") ++ '\n' :: []) := by
    simp [List.append_assoc]
    rfl
  have hM : '\n' ∉ pyStr "<!-- page " ++ natStr n ++ pyStr " -->" := by
    intro hmem
    rcases List.mem_append.mp hmem with h1 | h1
    · rcases List.mem_append.mp h1 with h2 | h2
      · exact absurd h2 (by decide)
      · exact natStr_no_nl n h2
    · exact absurd h1 (by decide)
  rw [e, pySplitNl_cons_nl, pySplitNl_append, pySplitNl_noNl _ hM] at hl
  rcases List.mem_cons.mp hl with h1 | h1
  · subst h1; rfl
  · rcases List.mem_cons.mp h1 with h2 | h2
    · subst h2
      have hA : hashLine (pyStr "<!-- page " ++ natStr n) = false :=
        hashLine_append (pyStr "<!-- page ") (natStr n) (by decide) (by decide)
      have hAB : pyStr "<!-- page " ++ natStr n ≠ [] := by
        intro hcon
        exact absurd (List.append_eq_nil.mp hcon).1 (by decide)
      exact hashLine_append _ _ hAB hA
    · have : l = [] := by simpa [pySplitNl] using h2
      subst this; rfl

theorem resolveHeaders_snd (last : Nat) (hs : List (Nat × List Char)) :
    (resolveHeaders last hs).map Prod.snd = hs.map Prod.snd := by
  induction hs generalizing last with
  | nil => rfl
  | cons h t ih =>
    obtain ⟨lvl, text⟩ := h
    simp [resolveHeaders, ih]

theorem flatten_headingParts (last : Nat) (hs : List (Nat × List Char))
    (hn : ∀ h ∈ hs, '\n' ∉ h.2) :
    (((resolveHeaders last hs).map headingPart).map partToc).flatten =
      (resolveHeaders last hs).map tocOfHeading := by
  have hn2 : ∀ h ∈ resolveHeaders last hs, '\n' ∉ h.2 := by
    intro h hm
    have hmap : h.2 ∈ (resolveHeaders last hs).map Prod.snd := List.mem_map_of_mem _ hm
    rw [resolveHeaders_snd] at hmap
    rcases List.mem_map.mp hmap with ⟨orig, ho, he⟩
    rw [← he]
    exact hn orig ho
  revert hn2
  generalize resolveHeaders last hs = L
  intro hn2
  induction L with
  | nil => rfl
  | cons x xs ih =>
    simp only [List.map_cons, List.flatten_cons]
    rw [partToc_headingPart x (hn2 x (List.mem_cons_self x xs)),
      ih (fun h hm => hn2 h (List.mem_cons_of_mem _ hm))]
    rfl

theorem flatten_partToc_nil (L : List (List Char))
    (h : ∀ part ∈ L, partToc part = []) : (L.map partToc).flatten = [] := by
  induction L with
  | nil => rfl
  | cons x xs ih =>
    simp only [List.map_cons, List.flatten_cons]
    rw [h x (List.mem_cons_self x xs), ih (fun p hp => h p (List.mem_cons_of_mem _ hp))]
    rfl

theorem partToc_pageParts (last : Nat) (p : PageData)
    (hhead : ∀ h ∈ p.headers, '\n' ∉ h.2)
    (htext : ∀ l ∈ pySplitNl (pageEmittedText p), hashLine l = false)
    (htables : ∀ tbl ∈ p.tables, ∀ l ∈ pySplitNl tbl, hashLine l = false) :
    ((pageParts last p).map partToc).flatten =
      (resolveHeaders last p.headers).map tocOfHeading := by
  rw [pageParts]
  simp only [List.map_append, List.flatten_append]
  rw [flatten_headingParts last p.headers hhead]
  have htextPart :
      (((if pageEmittedText p = [] then [] else [pageEmittedText p]) :
          List (List Char)).map partToc).flatten = [] := by
    by_cases he : pageEmittedText p = []
    · simp [he]
    · rw [if_neg he]
      exact flatten_partToc_nil _ (by
        intro part hp
        simp only [List.mem_singleton] at hp
        subst hp
        exact partToc_nil_of_lines _ htext)
  have htablePart :
      ((p.tables.filterMap (fun tbl =>
          if tbl = [] then none
          else some (pyStr "\n" ++ tbl ++ pyStr "\n"))).map partToc).flatten = [] := by
    apply flatten_partToc_nil
    intro part hp
    rcases List.mem_filterMap.mp hp with ⟨tbl, htbl, heq⟩
    by_cases hz : tbl = []
    · simp [hz] at heq
    · rw [if_neg hz] at heq
      cases heq
      exact partToc_tablePart tbl (htables tbl htbl)
  have hmarker :
      (([pyStr "\n<!-- page " ++ natStr p.page_number ++ pyStr " -->\n"].map partToc)).flatten
        = [] := by
    simp only [List.map_cons, List.map_nil, List.flatten_cons, List.flatten_nil,
      List.append_nil]
    simpa [List.append_assoc] using partToc_markerPart p.page_number
  rw [htextPart, htablePart, hmarker]
  simp

theorem partToc_pagesParts (last : Nat) (pages : List PageData)
    (hhead : ∀ p ∈ pages, ∀ h ∈ p.headers, '\n' ∉ h.2)
    (htext : ∀ p ∈ pages, ∀ l ∈ pySplitNl (pageEmittedText p), hashLine l = false)
    (htables : ∀ p ∈ pages, ∀ tbl ∈ p.tables, ∀ l ∈ pySplitNl tbl, hashLine l = false) :
    ((pagesParts last pages).map partToc).flatten =
      (resolvedHeadingsFrom last pages).map tocOfHeading := by
  induction pages generalizing last with
  | nil => rfl
  | cons p ps ih =>
    simp only [pagesParts, resolvedHeadingsFrom, List.map_append, List.flatten_append]
    rw [partToc_pageParts last p (hhead p (List.mem_cons_self p ps))
        (htext p (List.mem_cons_self p ps)) (htables p (List.mem_cons_self p ps)),
      ih (resolvedLast last p.headers)
        (fun q hq => hhead q (List.mem_cons_of_mem _ hq))
        (fun q hq => htext q (List.mem_cons_of_mem _ hq))
        (fun q hq => htables q (List.mem_cons_of_mem _ hq))]

theorem partToc_mdHead (meta : PDFMetadataL)
    (ht : '\n' ∉ meta.title) (ha : '\n' ∉ meta.author) (hf : '\n' ∉ meta.file_name) :
    ((mdHead meta).map partToc).flatten = [pyStr "- " ++ pyStrip meta.title] := by
  have h1 : partToc (pyStr "# " ++ (meta.title ++ pyStr "\n")) =
      [pyStr "- " ++ pyStrip meta.title] := by
    simpa [List.append_assoc] using partToc_titlePart meta.title ht
  have h2 : partToc (pyStr "---") = [] := by decide
  have h3 : partToc (pyStr "author: " ++ meta.author) = [] := by
    apply partToc_noNl
    · intro hm
      rcases List.mem_append.mp hm with hx | hx
      · exact absurd hx (by decide)
      · exact ha hx
    · exact hashLine_append _ _ (by decide) (by decide)
  have h4 : partToc (pyStr "pages: " ++ natStr meta.page_count) = [] := by
    apply partToc_noNl
    · intro hm
      rcases List.mem_append.mp hm with hx | hx
      · exact absurd hx (by decide)
      · exact natStr_no_nl _ hx
    · exact hashLine_append _ _ (by decide) (by decide)
  have h5 : partToc (pyStr "source: " ++ meta.file_name) = [] := by
    apply partToc_noNl
    · intro hm
      rcases List.mem_append.mp hm with hx | hx
      · exact absurd hx (by decide)
      · exact hf hx
    · exact hashLine_append _ _ (by decide) (by decide)
  have h6 : partToc (pyStr "has_images: true") = [] := by decide
  have h7 : partToc (pyStr "is_scanned: true") = [] := by decide
  have h8 : partToc (pyStr "---\n") = [] := by decide
  rw [mdHead]
  cases hb1 : meta.has_images <;> cases hb2 : meta.is_scanned <;>
    simp [h1, h2, h3, h4, h5, h6, h7, h8]

/-- C2 (amended): provided the title, author, source file name and
heading texts contain no newline and no line of the emitted page text or
of a rendered table starts with a hash mark, the table of contents has
exactly one more entry than there are resolved headings: the first entry
is the document title, and the remaining entries correspond one-to-one,
in order, to the resolved headings, each rendered with its stripped text
and indentation by effective level. (Both restrictions are forced: the
`# title` line always produces a TOC entry, and a body line such as
`#1 Best Seller` produces a further one; see the counterexample.) -/
theorem C2_toc_matches_headings (meta : PDFMetadataL) (pages : List PageData)
    (ht : '\n' ∉ meta.title) (ha : '\n' ∉ meta.author) (hf : '\n' ∉ meta.file_name)
    (hhead : ∀ p ∈ pages, ∀ h ∈ p.headers, '\n' ∉ h.2)
    (htext : ∀ p ∈ pages, ∀ l ∈ pySplitNl (pageEmittedText p), hashLine l = false)
    (htables : ∀ p ∈ pages, ∀ tbl ∈ p.tables, ∀ l ∈ pySplitNl tbl, hashLine l = false) :
    extract_toc (build_markdown meta pages) =
      (pyStr "- " ++ pyStrip meta.title) :: (resolvedHeadings pages).map tocOfHeading ∧
    (extract_toc (build_markdown meta pages)).length =
      (resolvedHeadings pages).length + 1 := by
  have hne : mdHead meta ++ pagesParts 0 pages ≠ [] := by
    intro hcon
    have hh := (List.append_eq_nil.mp hcon).1
    rw [mdHead] at hh
    simp at hh
  have heq : extract_toc (build_markdown meta pages) =
      (pyStr "- " ++ pyStrip meta.title) :: (resolvedHeadings pages).map tocOfHeading := by
    rw [build_markdown, extract_toc_join _ hne, List.map_append, List.flatten_append,
      partToc_mdHead meta ht ha hf,
      partToc_pagesParts 0 pages hhead htext htables]
    rfl
  refine ⟨heq, ?_⟩
  rw [heq]
  simp

/-- Metadata of the C2 witness document. -/
def c2wmeta : PDFMetadataL :=
  ⟨pyStr "Doc", pyStr "Auth", [], 2, pyStr "doc.pdf", false, false⟩

/-- Pages of the C2 witness document: one page with one level-2 detected
heading, which the tracker coerces to effective level 1. -/
def c2wpages : List PageData :=
  [⟨1, pyStr "Hello world", [], [(2, pyStr "Intro")]⟩]

/-- Witness for the amended C2 at a concrete document. -/
theorem C2_toc_matches_headings_witness :
    extract_toc (build_markdown c2wmeta c2wpages) =
      [pyStr "- Doc", pyStr "  - Intro"] ∧
    (extract_toc (build_markdown c2wmeta c2wpages)).length =
      (resolvedHeadings c2wpages).length + 1 := by
  have h := C2_toc_matches_headings c2wmeta c2wpages (by decide) (by decide) (by decide)
    (by decide) (by decide) (by decide)
  exact ⟨h.1.trans (by decide), h.2⟩

/-- The `ParsedChunk` dataclass (content, page, index, heading, and the
metadata dict entries source and title). -/
structure ParsedChunkL where
  content : List Char
  page_number : Nat
  chunk_index : Nat
  heading : List Char
  msource : List Char
  mtitle : List Char
deriving DecidableEq

/-- The mutable loop state of `_create_chunks`: accumulated chunks, next
chunk index, rolling text buffer, current page and current heading. -/
structure CState where
  chunks : List ParsedChunkL
  chunk_index : Nat
  current_text : List Char
  current_page : Nat
  current_heading : List Char
deriving DecidableEq

/-- Python `search_area.rfind(delimiter)` on a character list: the
largest index at which the pattern starts, if any. -/
def rfindSub (pat l : List Char) : Option Nat :=
  ((List.range (l.length + 1)).filter (fun i => pat.isPrefixOf (l.drop i))).getLast?

/-- The delimiter loop of `_find_split_point` (src/pdf_parser.py lines
950-953): first delimiter found in the search area wins; otherwise the
raw target offset. -/
def tryDelims : List (List Char) → List Char → Nat → Nat → Nat
  | [], _, _, target => target
  | d :: ds, area, ss, target =>
    match rfindSub d area with
    | some pos => ss + pos + d.length
    | none => tryDelims ds area ss target

/-- The delimiter priority list of `_find_split_point`. -/
def splitDelims : List (List Char) :=
  [pyStr "\n\n", pyStr ".\n", pyStr ". ", pyStr "? ", pyStr "! ", pyStr ", ", pyStr " "]

/-- `PDFParser._find_split_point` (src/pdf_parser.py lines 939-955). -/
def find_split_point (text : List Char) (target : Nat) : Nat :=
  if text.length ≤ target then text.length
  else
    tryDelims splitDelims
      ((text.take (min text.length (target + 100))).drop (target - 200))
      (target - 200) target

/-- One iteration of the `while len(current_text) >= chunk_size` loop of
`_create_chunks` (src/pdf_parser.py lines 897-922): cut at the split
point, emit a chunk if the stripped prefix is non-empty, rewind the
buffer to `split_point - overlap` (Python `max(0, ...)` is natural
subtraction) and record the page. -/
def chunkStep (size overlap : Nat) (meta : PDFMetadataL) (page_num : Nat) (st : CState) :
    CState :=
  let split_point := find_split_point st.current_text size
  let chunk_content := pyStrip (st.current_text.take split_point)
  ⟨(if chunk_content ≠ [] then
      st.chunks ++ [⟨chunk_content, st.current_page, st.chunk_index, st.current_heading,
        meta.file_name, meta.title⟩]
    else st.chunks),
   (if chunk_content ≠ [] then st.chunk_index + 1 else st.chunk_index),
   st.current_text.drop (split_point - overlap), page_num, st.current_heading⟩

/-- The inner while loop of `_create_chunks`, with explicit fuel: `none`
means the fuel ran out while the loop condition still held (the loop in
the source would still be running). -/
def chunkLoop (size overlap : Nat) (meta : PDFMetadataL) (page_num : Nat) :
    Nat → CState → Option CState
  | 0, st => if size ≤ st.current_text.length then none else some st
  | fuel + 1, st =>
    if size ≤ st.current_text.length then
      chunkLoop size overlap meta page_num fuel (chunkStep size overlap meta page_num st)
    else some st


/-- The per-page text of `_create_chunks`: the page text with each
non-empty rendered table appended between blank lines. -/
def pageChunkText (p : PageData) : List Char :=
  p.tables.foldl
    (fun acc tbl =>
      if tbl ≠ [] then acc ++ pyStr "\n\n" ++ tbl ++ pyStr "\n\n" else acc)
    p.text

/-- The heading update of `_create_chunks`: the first header of the
page, if any, becomes the current heading. -/
def pageUpdateHeading (p : PageData) (h : List Char) : List Char :=
  match p.headers with
  | [] => h
  | (_, t) :: _ => t

/-- The page loop of `_create_chunks`: append a newline plus the page
text to the buffer, then run the while loop (fuel one more than the
buffer length, which suffices whenever each iteration shortens the
buffer). -/
def chunkPages (size overlap : Nat) (meta : PDFMetadataL) :
    List PageData → CState → Option CState
  | [], st => some st
  | p :: ps, st =>
    (chunkLoop size overlap meta p.page_number
        ((st.current_text ++ '\n' :: pageChunkText p).length + 1)
        ⟨st.chunks, st.chunk_index, st.current_text ++ '\n' :: pageChunkText p,
          st.current_page, pageUpdateHeading p st.current_heading⟩).bind
      (fun st2 => chunkPages size overlap meta ps st2)

/-- `PDFParser._create_chunks` (src/pdf_parser.py lines 861-937):
initial state (no chunks, index 0, empty buffer, page 1, heading =
document title), the page loop, then the final remainder chunk. -/
def create_chunks (size overlap : Nat) (meta : PDFMetadataL) (pages : List PageData) :
    Option (List ParsedChunkL) :=
  (chunkPages size overlap meta pages ⟨[], 0, [], 1, meta.title⟩).map
    (fun st =>
      if pyStrip st.current_text ≠ [] then
        st.chunks ++ [⟨pyStrip st.current_text, st.current_page, st.chunk_index,
          st.current_heading, meta.file_name, meta.title⟩]
      else st.chunks)

theorem rfindSub_bound (pat l : List Char) (i : Nat) (h : rfindSub pat l = some i) :
    i + pat.length ≤ l.length := by
  unfold rfindSub at h
  have hmem0 : i ∈ ((List.range (l.length + 1)).filter
      (fun i => pat.isPrefixOf (l.drop i))).getLast? := by
    rw [h]; rfl
  rcases List.mem_getLast?_eq_getLast hmem0 with ⟨hne, heq⟩
  have hmem := heq ▸ List.getLast_mem hne
  have hfil := List.mem_filter.mp hmem
  have hi := List.mem_range.mp hfil.1
  have hp : pat <+: l.drop i := List.isPrefixOf_iff_prefix.mp hfil.2
  have hlen := hp.length_le
  rw [List.length_drop] at hlen
  omega

theorem tryDelims_cases (ds : List (List Char)) (area : List Char) (ss target : Nat) :
    tryDelims ds area ss target = target ∨
    ∃ d ∈ ds, ∃ i, rfindSub d area = some i ∧
      tryDelims ds area ss target = ss + i + d.length ∧ i + d.length ≤ area.length := by
  induction ds with
  | nil => exact Or.inl rfl
  | cons d ds ih =>
    rcases hr : rfindSub d area with _ | i
    · simp only [tryDelims, hr]
      rcases ih with h | ⟨d2, hd2, i, hi⟩
      · exact Or.inl h
      · exact Or.inr ⟨d2, List.mem_cons_of_mem _ hd2, i, hi.1, hi.2.1, hi.2.2⟩
    · refine Or.inr ⟨d, List.mem_cons_self d ds, i, hr, ?_, rfindSub_bound d area i hr⟩
      simp [tryDelims, hr]

theorem find_split_point_bounds (text : List Char) (size : Nat) (hsz : 1 ≤ size)
    (hlen : size ≤ text.length) :
    size - 199 ≤ find_split_point text size ∧
    find_split_point text size ≤ text.length ∧
    1 ≤ find_split_point text size := by
  by_cases hle : text.length ≤ size
  · rw [find_split_point, if_pos hle]
    omega
  · rw [find_split_point, if_neg hle]
    have hA : ((text.take (min text.length (size + 100))).drop (size - 200)).length =
        min text.length (size + 100) - (size - 200) := by
      rw [List.length_drop, List.length_take]
      omega
    have hdel : ∀ d ∈ splitDelims, 1 ≤ d.length := by decide
    rcases tryDelims_cases splitDelims
        ((text.take (min text.length (size + 100))).drop (size - 200))
        (size - 200) size with h | ⟨d, hd, i, hi, heq, hbound⟩
    · rw [h]
      omega
    · rw [heq]
      have hd1 := hdel d hd
      rw [hA] at hbound
      omega

theorem chunkStep_length (size overlap : Nat) (meta : PDFMetadataL) (pn : Nat)
    (st : CState) :
    (chunkStep size overlap meta pn st).current_text.length =
      st.current_text.length - (find_split_point st.current_text size - overlap) := by
  simp [chunkStep]

theorem chunkLoop_isSome (size overlap : Nat) (hsz : 1 ≤ size)
    (hov : overlap ≤ size - 200) (meta : PDFMetadataL) (pn : Nat) :
    ∀ fuel st, st.current_text.length < fuel →
      (chunkLoop size overlap meta pn fuel st).isSome = true := by
  intro fuel
  induction fuel with
  | zero =>
    intro st h
    exact absurd h (Nat.not_lt_zero _)
  | succ fuel ih =>
    intro st h
    rw [chunkLoop]
    by_cases hc : size ≤ st.current_text.length
    · rw [if_pos hc]
      apply ih
      have hb := find_split_point_bounds st.current_text size hsz hc
      rw [chunkStep_length]
      omega
    · rw [if_neg hc]
      rfl

theorem chunkPages_isSome (size overlap : Nat) (hsz : 1 ≤ size)
    (hov : overlap ≤ size - 200) (meta : PDFMetadataL) :
    ∀ (pages : List PageData) (st : CState),
      (chunkPages size overlap meta pages st).isSome = true := by
  intro pages
  induction pages with
  | nil =>
    intro st
    rfl
  | cons p ps ih =>
    intro st
    rw [chunkPages]
    have hloop := chunkLoop_isSome size overlap hsz hov meta p.page_number
      ((st.current_text ++ '\n' :: pageChunkText p).length + 1)
      ⟨st.chunks, st.chunk_index, st.current_text ++ '\n' :: pageChunkText p,
        st.current_page, pageUpdateHeading p st.current_heading⟩ (by simp)
    rcases hm : chunkLoop size overlap meta p.page_number
        ((st.current_text ++ '\n' :: pageChunkText p).length + 1)
        ⟨st.chunks, st.chunk_index, st.current_text ++ '\n' :: pageChunkText p,
          st.current_page, pageUpdateHeading p st.current_heading⟩ with _ | st2
    · rw [hm] at hloop
      simp at hloop
    · simpa using ih st2

/-- C9: for every page list and every configuration with
`chunk_overlap ≤ chunk_size - 200` — Python integer arithmetic, embedded
as `chunk_overlap + 200 ≤ chunk_size` — every split point on a buffer of
at least `chunk_size` characters lies between `chunk_size - 199` and the
buffer length inclusive and strictly exceeds the overlap, so every loop
iteration shortens the buffer by at least one character and chunking
completes on every page list. -/
theorem C9_chunk_termination (size overlap : Nat)
    (hov : overlap + 200 ≤ size) :
    (∀ text : List Char, size ≤ text.length →
      (size - 199 ≤ find_split_point text size ∧
       find_split_point text size ≤ text.length) ∧
      overlap < find_split_point text size) ∧
    (∀ (meta : PDFMetadataL) (pages : List PageData),
      (create_chunks size overlap meta pages).isSome = true) := by
  have hsz : 1 ≤ size := by omega
  have hov2 : overlap ≤ size - 200 := by omega
  constructor
  · intro text hlen
    have hb := find_split_point_bounds text size hsz hlen
    exact ⟨⟨hb.1, hb.2.1⟩, by omega⟩
  · intro meta pages
    have hp := chunkPages_isSome size overlap hsz hov2 meta pages ⟨[], 0, [], 1, meta.title⟩
    rw [create_chunks]
    rcases hm : chunkPages size overlap meta pages ⟨[], 0, [], 1, meta.title⟩ with _ | st
    · rw [hm] at hp
      simp at hp
    · rfl


/-- Metadata for the C9 witness document. -/
def c9wmeta : PDFMetadataL := ⟨pyStr "W", pyStr "A", [], 1, pyStr "w.pdf", false, false⟩

/-- Witness for C9 at a concrete configuration. -/
theorem C9_chunk_termination_witness :
    ((50 : Nat) + 200 ≤ 500) ∧
    50 < find_split_point (List.replicate 600 'a') 500 ∧
    (create_chunks 500 50 c9wmeta [⟨1, pyStr "ab", [], []⟩]).isSome = true := by
  have h := C9_chunk_termination 500 50 (by decide)
  refine ⟨by decide, ?_, h.2 c9wmeta [⟨1, pyStr "ab", [], []⟩]⟩
  exact (h.1 (List.replicate 600 'a') (by rw [List.length_replicate]; omega)).2

theorem pyStrip_noWs (l : List Char) (h : ∀ c ∈ l, c.isWhitespace = false) :
    pyStrip l = l := by
  have hdw : ∀ (m : List Char), (∀ c ∈ m, c.isWhitespace = false) →
      m.dropWhile Char.isWhitespace = m := by
    intro m hm
    cases m with
    | nil => rfl
    | cons c rest =>
      rw [List.dropWhile_cons, hm c (List.mem_cons_self c rest)]
      simp
  unfold pyStrip
  rw [hdw l h, hdw l.reverse (fun c hc => h c (List.mem_reverse.mp hc))]
  exact List.reverse_reverse l

theorem rfindSub_none (c0 : Char) (drest : List Char) (area : List Char)
    (hno : c0 ∉ area) : rfindSub (c0 :: drest) area = none := by
  unfold rfindSub
  rw [List.getLast?_eq_none_iff, List.filter_eq_nil_iff]
  intro i hi
  simp only [Bool.not_eq_true]
  by_cases hp : (c0 :: drest).isPrefixOf (area.drop i) = true
  · exfalso
    rcases List.isPrefixOf_iff_prefix.mp hp with ⟨t, ht⟩
    have hmem : c0 ∈ area.drop i := by
      rw [← ht]
      exact List.mem_append_left _ (List.mem_cons_self _ _)
    exact hno (List.mem_of_mem_drop hmem)
  · exact Bool.not_eq_true _ ▸ hp

theorem find_split_point_noDelim (l : List Char) (target : Nat) (hgt : target < l.length)
    (hok : ∀ c ∈ (l.take (min l.length (target + 100))).drop (target - 200),
      c ≠ '\n' ∧ c ≠ '.' ∧ c ≠ '?' ∧ c ≠ '!' ∧ c ≠ ',' ∧ c ≠ ' ') :
    find_split_point l target = target := by
  rw [find_split_point, if_neg (by omega)]
  set area := (l.take (min l.length (target + 100))).drop (target - 200) with harea
  have h1 : rfindSub (pyStr "\n\n") area = none :=
    rfindSub_none '\n' ['\n'] area (fun hm => (hok _ hm).1 rfl)
  have h2 : rfindSub (pyStr ".\n") area = none :=
    rfindSub_none '.' ['\n'] area (fun hm => (hok _ hm).2.1 rfl)
  have h3 : rfindSub (pyStr ". ") area = none :=
    rfindSub_none '.' [' '] area (fun hm => (hok _ hm).2.1 rfl)
  have h4 : rfindSub (pyStr "? ") area = none :=
    rfindSub_none '?' [' '] area (fun hm => (hok _ hm).2.2.1 rfl)
  have h5 : rfindSub (pyStr "! ") area = none :=
    rfindSub_none '!' [' '] area (fun hm => (hok _ hm).2.2.2.1 rfl)
  have h6 : rfindSub (pyStr ", ") area = none :=
    rfindSub_none ',' [' '] area (fun hm => (hok _ hm).2.2.2.2.1 rfl)
  have h7 : rfindSub (pyStr " ") area = none :=
    rfindSub_none ' ' [] area (fun hm => (hok _ hm).2.2.2.2.2 rfl)
  simp [splitDelims, tryDelims, h1, h2, h3, h4, h5, h6, h7]

/-- C8: with chunk_size 500 and chunk_overlap 50, a single page of 1200
characters with no punctuation and no whitespace (none of the split
delimiters occur) produces exactly 3 chunks with chunk_index 0, 1, 2,
and each chunk after the first begins with exactly the final 50
characters of the previous chunk. -/
theorem C8_chunking_scenario (meta : PDFMetadataL) (text : List Char)
    (hlen : text.length = 1200)
    (hch : ∀ c ∈ text,
      c.isWhitespace = false ∧ c ≠ '.' ∧ c ≠ '?' ∧ c ≠ '!' ∧ c ≠ ',') :
    create_chunks 500 50 meta [⟨1, text, [], []⟩] =
      some [⟨text.take 499, 1, 0, meta.title, meta.file_name, meta.title⟩,
            ⟨(text.drop 449).take 500, 1, 1, meta.title, meta.file_name, meta.title⟩,
            ⟨text.drop 899, 1, 2, meta.title, meta.file_name, meta.title⟩] ∧
    ((text.drop 449).take 500).take 50 = (text.take 499).drop 449 ∧
    (text.drop 899).take 50 = ((text.drop 449).take 500).drop 450 := by
  have hws : ∀ c ∈ text, c.isWhitespace = false := fun c hc => (hch c hc).1
  have hok : ∀ c ∈ text,
      c ≠ '\n' ∧ c ≠ '.' ∧ c ≠ '?' ∧ c ≠ '!' ∧ c ≠ ',' ∧ c ≠ ' ' := by
    intro c hc
    obtain ⟨h0, h1, h2, h3, h4⟩ := hch c hc
    refine ⟨fun e => ?_, h1, h2, h3, h4, fun e => ?_⟩
    · rw [e] at h0; exact absurd h0 (by decide)
    · rw [e] at h0; exact absurd h0 (by decide)
  have hs1 : find_split_point ('\n' :: text) 500 = 500 := by
    apply find_split_point_noDelim
    · rw [List.length_cons, hlen]; omega
    · intro c hc
      apply hok
      have hmin : min ('\n' :: text).length (500 + 100) = 600 := by
        rw [List.length_cons, hlen]
        omega
      rw [hmin, show (600 : Nat) = 599 + 1 from rfl, List.take_succ_cons,
        show (500 - 200 : Nat) = 299 + 1 from rfl, List.drop_succ_cons] at hc
      exact List.mem_of_mem_take (List.mem_of_mem_drop hc)
  have hs2 : find_split_point (text.drop 449) 500 = 500 := by
    apply find_split_point_noDelim
    · rw [List.length_drop, hlen]; omega
    · intro c hc
      exact hok c (List.mem_of_mem_drop (List.mem_of_mem_take (List.mem_of_mem_drop hc)))
  have hstrip1 : pyStrip (('\n' :: text).take 500) = text.take 499 := by
    rw [show (500 : Nat) = 499 + 1 from rfl, List.take_succ_cons,
      pyStrip_cons_ws '\n' (by decide)]
    exact pyStrip_noWs _ (fun c hc => hws c (List.mem_of_mem_take hc))
  have hstrip2 : pyStrip ((text.drop 449).take 500) = (text.drop 449).take 500 :=
    pyStrip_noWs _ (fun c hc => hws c (List.mem_of_mem_drop (List.mem_of_mem_take hc)))
  have hstrip3 : pyStrip (text.drop 899) = text.drop 899 :=
    pyStrip_noWs _ (fun c hc => hws c (List.mem_of_mem_drop hc))
  have hne1 : text.take 499 ≠ [] := by
    intro hcon
    have hl := congrArg List.length hcon
    rw [List.length_take, hlen] at hl
    simp at hl
  have hne2 : (text.drop 449).take 500 ≠ [] := by
    intro hcon
    have hl := congrArg List.length hcon
    rw [List.length_take, List.length_drop, hlen] at hl
    simp at hl
  have hne3 : text.drop 899 ≠ [] := by
    intro hcon
    have hl := congrArg List.length hcon
    rw [List.length_drop, hlen] at hl
    simp at hl
  have hstep1 : chunkStep 500 50 meta 1 ⟨[], 0, '\n' :: text, 1, meta.title⟩ =
      ⟨[⟨text.take 499, 1, 0, meta.title, meta.file_name, meta.title⟩], 1,
        text.drop 449, 1, meta.title⟩ := by
    simp only [chunkStep, hs1]
    rw [hstrip1]
    simp only [if_pos hne1]
    rw [show (500 - 50 : Nat) = 449 + 1 from rfl, List.drop_succ_cons]
    rfl
  have hstep2 : chunkStep 500 50 meta 1
      ⟨[⟨text.take 499, 1, 0, meta.title, meta.file_name, meta.title⟩], 1,
        text.drop 449, 1, meta.title⟩ =
      ⟨[⟨text.take 499, 1, 0, meta.title, meta.file_name, meta.title⟩,
        ⟨(text.drop 449).take 500, 1, 1, meta.title, meta.file_name, meta.title⟩], 2,
        text.drop 899, 1, meta.title⟩ := by
    simp only [chunkStep, hs2]
    rw [hstrip2]
    simp only [if_pos hne2]
    rw [show (500 - 50 : Nat) = 450 from rfl, List.drop_drop]
    rfl
  have hloop : chunkLoop 500 50 meta 1 (('\n' :: text).length + 1)
      ⟨[], 0, '\n' :: text, 1, meta.title⟩ =
      some ⟨[⟨text.take 499, 1, 0, meta.title, meta.file_name, meta.title⟩,
        ⟨(text.drop 449).take 500, 1, 1, meta.title, meta.file_name, meta.title⟩], 2,
        text.drop 899, 1, meta.title⟩ := by
    have hl1 : ('\n' :: text).length + 1 = 1201 + 1 := by
      rw [List.length_cons, hlen]
    rw [hl1, chunkLoop,
      if_pos (show 500 ≤ ('\n' :: text).length by rw [List.length_cons, hlen]; omega),
      hstep1,
      show (1201 : Nat) = 1200 + 1 from rfl, chunkLoop,
      if_pos (show 500 ≤ (text.drop 449).length by rw [List.length_drop, hlen]; omega),
      hstep2,
      show (1200 : Nat) = 1199 + 1 from rfl, chunkLoop,
      if_neg (show ¬ 500 ≤ (text.drop 899).length by rw [List.length_drop, hlen]; omega)]
  refine ⟨?_, ?_, ?_⟩
  · simp only [create_chunks, chunkPages, pageChunkText, pageUpdateHeading,
      List.foldl_nil, List.nil_append]
    rw [hloop]
    simp only [Option.some_bind, chunkPages, Option.map_some']
    rw [hstrip3]
    simp only [if_pos hne3]
    rfl
  · rw [List.take_take, List.drop_take]
    norm_num
  · rw [List.drop_take, List.drop_drop]

/-- Metadata for the C8 witness document. -/
def c8meta : PDFMetadataL := ⟨pyStr "T8", pyStr "A8", [], 1, pyStr "t8.pdf", false, false⟩

/-- A 1200-character text with no punctuation and no whitespace. -/
def c8text : List Char := List.replicate 1200 'x'

/-- Witness for C8 at a concrete 1200-character text. -/
theorem C8_chunking_scenario_witness :
    (c8text.length = 1200 ∧
      ∀ c ∈ c8text,
        c.isWhitespace = false ∧ c ≠ '.' ∧ c ≠ '?' ∧ c ≠ '!' ∧ c ≠ ',') ∧
    create_chunks 500 50 c8meta [⟨1, c8text, [], []⟩] =
      some [⟨c8text.take 499, 1, 0, c8meta.title, c8meta.file_name, c8meta.title⟩,
            ⟨(c8text.drop 449).take 500, 1, 1, c8meta.title, c8meta.file_name, c8meta.title⟩,
            ⟨c8text.drop 899, 1, 2, c8meta.title, c8meta.file_name, c8meta.title⟩] := by
  have hlen : c8text.length = 1200 := by
    rw [c8text, List.length_replicate]
  have hch : ∀ c ∈ c8text,
      c.isWhitespace = false ∧ c ≠ '.' ∧ c ≠ '?' ∧ c ≠ '!' ∧ c ≠ ',' := by
    intro c hc
    rw [c8text] at hc
    have he := List.eq_of_mem_replicate hc
    subst he
    decide
  exact ⟨⟨hlen, hch⟩, (C8_chunking_scenario c8meta c8text hlen hch).1⟩
